import Mathlib

/-!
Shallow embedding of the kmers package (src/kmers/kmers.py): the LazyDict
container, the Composition k-mer model and the distance functions built on
top of it.  Python floats are modelled as exact rationals; the numeric
functions log10 and log2 are abstracted as parameters because no claim
below depends on their values, only on their call sites.  Python dicts are
modelled as insertion-ordered association lists.
-/

set_option autoImplicit false

namespace Kmers

/-- Errors raised by the source.  All of them are Python exceptions
(ValueError, KeyError, AttributeError, ZeroDivisionError); they are
separated here by raise site so that claims can name them. -/
inductive KmersError where
  | invalidInput
  | incompatibleModels
  | modelMismatch
  | keyNotFound
  | attributeError
  | zeroDivision
deriving DecidableEq, Repr

/-- First-match lookup in an association list: the model of Python dict
indexing `d[key]`, with `none` standing for a KeyError. -/
def lookupA {K V : Type} [DecidableEq K] : List (K × V) → K → Option V
  | [], _ => none
  | p :: rest, k => if p.1 = k then some p.2 else lookupA rest k

/-- Helper for pyDedup: drop every key already seen. -/
def pyDedupAux {K : Type} [DecidableEq K] : List K → List K → List K
  | [], _ => []
  | k :: rest, seen =>
    if k ∈ seen then pyDedupAux rest seen else k :: pyDedupAux rest (k :: seen)

/-- Key list with duplicates removed, keeping first occurrences: the key
order of a Python dict comprehension over a possibly repeating iterable. -/
def pyDedup {K : Type} [DecidableEq K] (l : List K) : List K :=
  pyDedupAux l []

/-- Model of the Python dict comprehension with a pure value rule: one
entry per distinct key, first-occurrence order. -/
def pyDictComp {K V : Type} [DecidableEq K] (ks : List K) (f : K → V) : List (K × V) :=
  (pyDedup ks).map (fun k => (k, f k))

/-- State of kmers.LazyDict: the `_dict` cache, the `values_fresh` flag
and the two supplied rules.  In the source the rules are closures reading
the owner's state; here they are pure functions, and the claims about
LazyDict quantify over them. -/
structure LazyDict (K V : Type) where
  recompute : K → V
  keys_source : Unit → List K
  values_fresh : Bool
  cache : List (K × V)

/-- LazyDict.__init__: created empty and stale. -/
def LazyDict.mkNew {K V : Type} (ks : Unit → List K) (f : K → V) : LazyDict K V :=
  { recompute := f, keys_source := ks, values_fresh := false, cache := [] }

/-- LazyDict._update_values: read the current key set, recompute every
value, replace the cache wholesale and mark it fresh. -/
def LazyDict.updateValues {K V : Type} [DecidableEq K] (d : LazyDict K V) : LazyDict K V :=
  { d with cache := pyDictComp (d.keys_source ()) d.recompute, values_fresh := true }

/-- Setting values_fresh to False by hand, as the owner does after every
mutation (invalidate() in the spec's vocabulary). -/
def LazyDict.invalidate {K V : Type} (d : LazyDict K V) : LazyDict K V :=
  { d with values_fresh := false }

/-- LazyDict.__getitem__: rebuild first when stale, then index the cache
(a missing key is a KeyError).  Returns the result together with the
possibly rebuilt state. -/
def LazyDict.getItem {K V : Type} [DecidableEq K] (d : LazyDict K V) (k : K) :
    Except KmersError V × LazyDict K V :=
  if d.values_fresh then
    (match lookupA d.cache k with
     | some v => .ok v
     | none => .error .keyNotFound, d)
  else
    let d' := d.updateValues
    (match lookupA d'.cache k with
     | some v => .ok v
     | none => .error .keyNotFound, d')

/-- LazyDict.keys: rebuild when stale, then list the cached keys. -/
def LazyDict.keysOp {K V : Type} [DecidableEq K] (d : LazyDict K V) : List K × LazyDict K V :=
  let d' := if d.values_fresh then d else d.updateValues
  (d'.cache.map Prod.fst, d')

/-- LazyDict.values: rebuild when stale, then list the cached values. -/
def LazyDict.valuesOp {K V : Type} [DecidableEq K] (d : LazyDict K V) : List V × LazyDict K V :=
  let d' := if d.values_fresh then d else d.updateValues
  (d'.cache.map Prod.snd, d')

/-- Bool test that two key lists coincide as multisets: the model of the
source's sorted(list(keys1)) == sorted(list(keys2)) comparison. -/
def sameKeyMultiset {K : Type} [DecidableEq K] (l1 l2 : List K) : Bool :=
  l1.length == l2.length && l1.all (fun x => l1.count x == l2.count x)

/-- LazyDict.__eq__ against a plain dict: rebuild when stale, then
compare key multisets and, key by key, the stored values. -/
def LazyDict.eqOp {K V : Type} [DecidableEq K] [DecidableEq V]
    (d : LazyDict K V) (other : List (K × V)) : Bool × LazyDict K V :=
  let d' := if d.values_fresh then d else d.updateValues
  let ks := d'.cache.map Prod.fst
  (sameKeyMultiset ks (other.map Prod.fst)
     && ks.all (fun x => decide (lookupA other x = lookupA d'.cache x)), d')

/-- A Biopython SeqRecord reduced to the one interface the core uses:
str(record.seq). -/
structure SeqRecord where
  seq : String
deriving DecidableEq, Repr

/-- State of kmers.Composition.  The two LazyDict views close over the
owning object, so their rebuilt contents are functions of this state
(relValues and logValues below); the record keeps their values_fresh
flags.  pseudocount is Option-valued because the source assigns
self.pseudocount only inside read; none models the attribute being
absent (an AttributeError on access). -/
structure Composition where
  k : Nat
  kmer_count : Nat
  sequence_count : Nat
  abs_distribution : List (String × Nat)
  pseudocount : Option ℚ
  log_fresh : Bool
  rel_fresh : Bool
deriving DecidableEq, Repr

/-- Composition.__init__ with neither seq nor fh: k fixed, counters zero,
empty count table, both derived views created stale. -/
def Composition.init (k : Nat) : Composition :=
  { k := k, kmer_count := 0, sequence_count := 0, abs_distribution := [],
    pseudocount := none, log_fresh := false, rel_fresh := false }

/-- Composition.keys, which the source forwards to
abs_distribution.keys(). -/
def keys (c : Composition) : List String :=
  c.abs_distribution.map Prod.fst

/-- Count stored in the table for a k-mer (0 for an absent key; the
source only ever reads keys that are present). -/
def countOf (c : Composition) (w : String) : Nat :=
  (lookupA c.abs_distribution w).getD 0

/-- The Python slice s[j : j + k]. -/
def kmerAt (s : String) (j k : Nat) : String :=
  (s.drop j).take k

/-- One try/except KeyError step of ingestion: increment the count in
place when the key exists, otherwise append it with count 1 (Python dict
insertion order). -/
def absIncr : List (String × Nat) → String → List (String × Nat)
  | [], w => [(w, 1)]
  | p :: rest, w => if p.1 = w then (p.1, p.2 + 1) :: rest else p :: absIncr rest w

/-- Composition.process_single_sequence.  The Python loop runs over
range(len(s) - k + 1), which is empty when len(s) < k; truncated Nat
subtraction in s.length + 1 - k yields exactly that iteration count.
Both derived views are invalidated at the end. -/
def process_single_sequence (c : Composition) (sequence : SeqRecord) : Composition :=
  let s := sequence.seq
  let r := (List.range (s.length + 1 - c.k)).foldl
    (fun st j => (st.1 + 1, absIncr st.2 (kmerAt s j c.k)))
    (c.kmer_count, c.abs_distribution)
  { c with kmer_count := r.1, abs_distribution := r.2,
           sequence_count := c.sequence_count + 1,
           log_fresh := false, rel_fresh := false }

/-- A Python value that can be handed to process directly or inside a
list/tuple: either a SeqRecord or anything else. -/
inductive PyVal where
  | seqRecord (r : SeqRecord)
  | other
deriving DecidableEq, Repr

/-- The argument shapes process dispatches on: a SeqRecord, a list or
tuple of values, or any other object. -/
inductive ProcessArg where
  | record (r : SeqRecord)
  | many (l : List PyVal)
  | other
deriving DecidableEq, Repr

/-- The isinstance(sequence, SeqRecord) guard at the top of
process_single_sequence: a non-SeqRecord raises ValueError.  State and
raised error are returned together, mirroring in-place mutation plus a
propagating exception. -/
def processSinglePy (c : Composition) : PyVal → Composition × Option KmersError
  | .seqRecord r => (process_single_sequence c r, none)
  | .other => (c, some .invalidInput)

/-- The loop over a list/tuple argument: elements before a failing one
have already been ingested by the time the exception propagates. -/
def processList (c : Composition) : List PyVal → Composition × Option KmersError
  | [] => (c, none)
  | v :: rest =>
    match processSinglePy c v with
    | (c', none) => processList c' rest
    | (c', some e) => (c', some e)

/-- Composition.process: isinstance dispatch on the argument.  The
source has no else clause, so an argument that is neither a SeqRecord
nor a list/tuple falls through both branches and is silently ignored. -/
def process (c : Composition) : ProcessArg → Composition × Option KmersError
  | .record r => (process_single_sequence c r, none)
  | .many l => processList c l
  | .other => (c, none)

/-- The log_distribution LazyDict as rebuilt from the current state:
keys from self.keys(), each value
log10(abs_distribution[x]) - log10(kmer_count), with log10 abstract. -/
def logValues (l10 : ℚ → ℚ) (c : Composition) : List (String × ℚ) :=
  pyDictComp (keys c) (fun x => l10 ((countOf c x : ℚ)) - l10 ((c.kmer_count : ℚ)))

/-- The relative_distribution recompute rule
abs_distribution[x] / kmer_count, exact in ℚ. -/
def relVal (c : Composition) (x : String) : ℚ :=
  (countOf c x : ℚ) / (c.kmer_count : ℚ)

/-- The relative_distribution LazyDict as rebuilt from the current
state. -/
def relValues (c : Composition) : List (String × ℚ) :=
  pyDictComp (keys c) (relVal c)

/-- Indexing the rebuilt relative view, as a.relative_distribution[j]
does after the staleness check. -/
def relGet (c : Composition) (j : String) : Option ℚ :=
  lookupA (relValues c) j

/-- Composition.prob (the spec's sequence_log_likelihood).  The local
pseudocount is log10(1 / kmer_count); the loop runs over
range(len(s) - k) -- one position short of the last possible window --
and a KeyError from the log view is answered with the pseudocount. -/
def prob (l10 : ℚ → ℚ) (c : Composition) (sequence : SeqRecord) : ℚ :=
  let pseudocount := l10 (1 / (c.kmer_count : ℚ))
  let s := sequence.seq
  (List.range (s.length - c.k)).foldl
    (fun p j =>
      p + (match lookupA (logValues l10 c) (kmerAt s j c.k) with
           | some pr => pr
           | none => pseudocount)) 0

/-- Composition.write.  The local pseudocount computation divides by
kmer_count first (ZeroDivisionError on an empty model); the Pseudo line
then reads self.pseudocount, an attribute that exists only after read
(AttributeError otherwise).  Output lines are (column, column) pairs
with the numeric payload kept as a rational; text formatting is outside
the model. -/
def write (l10 : ℚ → ℚ) (c : Composition) : Except KmersError (List (String × ℚ)) :=
  if c.kmer_count = 0 then .error .zeroDivision
  else
    match c.pseudocount with
    | none => .error .attributeError
    | some p =>
      .ok (("Pseudo", p) :: ("SCount", (c.sequence_count : ℚ)) ::
        (keys c).map (fun j => (j, (lookupA (logValues l10 c) j).getD 0)))

/-- Composition.read, one tab-split line at a time.  parseF and parseI
abstract the Python float() and int() conversions.  checked mirrors
checked_len.  model mirrors the local dict `model`, which the source
fills line by line and then drops on return: it is never assigned to the
object, so the accumulator below is discarded by read. -/
def readLoop (parseF : String → ℚ) (parseI : String → Nat) :
    Composition → Bool → List (String × String) → List (String × String) →
    Composition × Option KmersError
  | c, _, _, [] => (c, none)
  | c, checked, model, (kmer, fl) :: rest =>
    if kmer = "Pseudo" then
      readLoop parseF parseI { c with pseudocount := some (parseF fl) } checked model rest
    else if kmer = "SCount" then
      readLoop parseF parseI { c with sequence_count := parseI fl } checked
        (model ++ [(kmer, fl)]) rest
    else if checked = false then
      if kmer.length ≠ c.k then (c, some .modelMismatch)
      else readLoop parseF parseI c true (model ++ [(kmer, fl)]) rest
    else readLoop parseF parseI c checked (model ++ [(kmer, fl)]) rest

/-- Composition.read on a whole stream of tab-split lines. -/
def read (parseF : String → ℚ) (parseI : String → Nat)
    (c : Composition) (lines : List (String × String)) :
    Composition × Option KmersError :=
  readLoop parseF parseI c false [] lines

/-- The intersection set(l1).intersection(set(l2)) as iterated by the
distance functions.  A Python set iterates in unspecified order and
every use below only sums over it, so a deterministic order is taken. -/
def interKeys {K : Type} [DecidableEq K] (l1 l2 : List K) : List K :=
  (pyDedup l1).filter (fun j => decide (j ∈ l2))

/-- kmers.euclidean up to the final Decimal.sqrt: the accumulated sum of
squared differences of relative frequencies over the shared keys, exact
in ℚ (the source's 500-digit Decimal context approximates the same sum).
The square root itself is not representable in ℚ and no claim uses its
value; sqrt of the sum is 0 iff the sum is 0.  Note that the source has
no k comparison here. -/
def euclidean (a b : Composition) : Except KmersError ℚ :=
  .ok ((interKeys (keys a) (keys b)).foldl
    (fun n j => n + ((relGet a j).getD 0 - (relGet b j).getD 0) ^ 2) 0)

/-- kmers.kullback_leibler over two dicts (in the source: a rebuilt
relative view and/or a plain dict), with log2 abstract.  No k comparison
here either. -/
def kullback_leibler (l2 : ℚ → ℚ) (d e : List (String × ℚ)) : ℚ :=
  (interKeys (d.map Prod.fst) (e.map Prod.fst)).foldl
    (fun kl j => kl + (lookupA d j).getD 0 *
      (l2 ((lookupA d j).getD 0) - l2 ((lookupA e j).getD 0))) 0

/-- kmers.ffp_distance: the only distance function with the same-k
check; builds avg_model over the shared keys and averages the two KL
divergences against it. -/
def ffp_distance (l2 : ℚ → ℚ) (a b : Composition) : Except KmersError ℚ :=
  if a.k = b.k then
    let avg := (interKeys (keys a) (keys b)).map
      (fun j => (j, ((relGet a j).getD 0 + (relGet b j).getD 0) / 2))
    .ok (kullback_leibler l2 (relValues a) avg / 2
       + kullback_leibler l2 (relValues b) avg / 2)
  else .error .incompatibleModels

/-- Modelled from the spec's words, for the refinement half of claim C7:
the midpoint model assigns each key in the intersection of the two key
sets the arithmetic mean of the two relative frequencies. -/
def midpoint_spec (a b : Composition) : List (String × ℚ) :=
  (interKeys (keys a) (keys b)).map (fun j => (j, (relVal a j + relVal b j) / 2))

/-- Compositions reachable through construction and the ingestion path
only, never loaded from a stream. -/
inductive BuiltByIngestion : Composition → Prop
  | base (k : Nat) : BuiltByIngestion (Composition.init k)
  | step (c : Composition) (item : ProcessArg) (h : BuiltByIngestion c) :
      BuiltByIngestion (process c item).1

/-- Composition(k=3, seq=SeqRecord(seq='ACACAT')), the spec's concrete
scenario. -/
def cACACAT : Composition :=
  (process (Composition.init 3) (ProcessArg.record ⟨"ACACAT"⟩)).1

/-- Composition(k=2, seq=SeqRecord(seq='ACAC')), a model with a
different k used to exercise the distance functions. -/
def cACAC2 : Composition :=
  (process (Composition.init 2) (ProcessArg.record ⟨"ACAC"⟩)).1

/-- A small concrete LazyDict in the shape of the repository's own
LazyDict test: keys 0..2, each value twice the key. -/
def ldTest : LazyDict Nat Nat :=
  LazyDict.mkNew (fun _ => [0, 1, 2]) (fun x => x * 2)

theorem mem_pyDedupAux {K : Type} [DecidableEq K] :
    ∀ (l seen : List K) (x : K), x ∈ pyDedupAux l seen ↔ x ∈ l ∧ x ∉ seen := by
  intro l
  induction l with
  | nil => intro seen x; simp [pyDedupAux]
  | cons k rest ih =>
    intro seen x
    by_cases hk : k ∈ seen
    · rw [pyDedupAux, if_pos hk, ih]
      constructor
      · rintro ⟨h1, h2⟩; exact ⟨List.mem_cons_of_mem _ h1, h2⟩
      · rintro ⟨h1, h2⟩
        rcases List.mem_cons.mp h1 with rfl | h1
        · exact absurd hk h2
        · exact ⟨h1, h2⟩
    · rw [pyDedupAux, if_neg hk]
      constructor
      · intro hx
        rcases List.mem_cons.mp hx with rfl | hx
        · exact ⟨List.mem_cons_self _ _, hk⟩
        · obtain ⟨h1, h2⟩ := (ih _ x).mp hx
          refine ⟨List.mem_cons_of_mem _ h1, fun hs => h2 (List.mem_cons_of_mem _ hs)⟩
      · rintro ⟨h1, h2⟩
        rcases List.mem_cons.mp h1 with rfl | h1
        · exact List.mem_cons_self _ _
        · by_cases hxk : x = k
          · subst hxk; exact List.mem_cons_self _ _
          · exact List.mem_cons_of_mem _ ((ih _ x).mpr
              ⟨h1, fun hs => by
                rcases List.mem_cons.mp hs with h | h
                · exact hxk h
                · exact h2 h⟩)

theorem mem_pyDedup {K : Type} [DecidableEq K] (l : List K) (x : K) :
    x ∈ pyDedup l ↔ x ∈ l := by
  rw [pyDedup, mem_pyDedupAux]; simp

theorem lookupA_mapPairs {K V : Type} [DecidableEq K] (f : K → V) :
    ∀ (l : List K) (j : K),
      lookupA (l.map (fun k => (k, f k))) j = if j ∈ l then some (f j) else none := by
  intro l
  induction l with
  | nil => intro j; simp [lookupA]
  | cons k rest ih =>
    intro j
    by_cases h : k = j
    · subst h; simp [lookupA]
    · rw [List.map_cons, lookupA, if_neg h, ih]
      by_cases hj : j ∈ rest
      · rw [if_pos hj, if_pos (List.mem_cons_of_mem _ hj)]
      · rw [if_neg hj, if_neg (fun hh => ?_)]
        rcases List.mem_cons.mp hh with h1 | h2
        · exact h h1.symm
        · exact hj h2

theorem lookupA_pyDictComp {K V : Type} [DecidableEq K] (ks : List K) (f : K → V) (j : K) :
    lookupA (pyDictComp ks f) j = if j ∈ ks then some (f j) else none := by
  rw [pyDictComp, lookupA_mapPairs]
  by_cases hj : j ∈ ks
  · rw [if_pos ((mem_pyDedup ks j).mpr hj), if_pos hj]
  · rw [if_neg (fun hh => hj ((mem_pyDedup ks j).mp hh)), if_neg hj]

theorem map_fst_pyDictComp {K V : Type} [DecidableEq K] (ks : List K) (f : K → V) :
    (pyDictComp ks f).map Prod.fst = pyDedup ks := by
  simp [pyDictComp, List.map_map, Function.comp_def]

theorem mapCongrOn {α β : Type} (f g : α → β) :
    ∀ (l : List α), (∀ a ∈ l, f a = g a) → l.map f = l.map g := by
  intro l
  induction l with
  | nil => intro _; rfl
  | cons a rest ih =>
    intro h
    rw [List.map_cons, List.map_cons, h a (List.mem_cons_self _ _),
      ih (fun x hx => h x (List.mem_cons_of_mem _ hx))]

theorem foldl_add_eq {α : Type} (f : α → ℚ) :
    ∀ (l : List α) (i : ℚ), l.foldl (fun acc j => acc + f j) i = i + (l.map f).sum := by
  intro l
  induction l with
  | nil => intro i; simp
  | cons a rest ih =>
    intro i
    rw [List.foldl_cons, ih, List.map_cons, List.sum_cons]
    ring

theorem lookupA_absIncr (w v : String) :
    ∀ d : List (String × Nat),
      (lookupA (absIncr d w) v).getD 0 =
        if v = w then (lookupA d v).getD 0 + 1 else (lookupA d v).getD 0 := by
  intro d
  induction d with
  | nil =>
    by_cases h : v = w
    · simp [absIncr, lookupA, h]
    · have h2 : ¬(w = v) := fun hh => h hh.symm
      simp [absIncr, lookupA, h, h2]
  | cons p rest ih =>
    obtain ⟨x, n⟩ := p
    by_cases hxw : x = w
    · by_cases hv : v = w
      · have hxv : x = v := hxw.trans hv.symm
        simp only [absIncr, if_pos hxw, lookupA, if_pos hxv, if_pos hv]
        rfl
      · have hxv : ¬(x = v) := fun hh => hv (hh.symm.trans hxw)
        simp only [absIncr, if_pos hxw, lookupA, if_neg hxv, if_neg hv]
    · by_cases hxv : x = v
      · have hvw : ¬(v = w) := fun hh => hxw (hxv.trans hh)
        simp only [absIncr, if_neg hxw, lookupA, if_pos hxv, if_neg hvw]
      · simp only [absIncr, if_neg hxw, lookupA, if_neg hxv]
        exact ih

theorem ingest_foldl (k : Nat) (s : String) :
    ∀ (js : List Nat) (n : Nat) (d : List (String × Nat)),
      ((js.foldl (fun st j => (st.1 + 1, absIncr st.2 (kmerAt s j k))) (n, d)).1
        = n + js.length)
      ∧ ∀ w : String,
          ((lookupA (js.foldl (fun st j => (st.1 + 1, absIncr st.2 (kmerAt s j k))) (n, d)).2 w).getD 0
            = (lookupA d w).getD 0
              + ((js.filter (fun j => decide (kmerAt s j k = w))).length)) := by
  intro js
  induction js with
  | nil => intro n d; simp
  | cons j rest ih =>
    intro n d
    rw [List.foldl_cons]
    refine ⟨?_, ?_⟩
    · rw [(ih (n + 1) (absIncr d (kmerAt s j k))).1, List.length_cons]
      omega
    · intro w
      rw [(ih (n + 1) (absIncr d (kmerAt s j k))).2 w, lookupA_absIncr, List.filter_cons]
      by_cases hw : kmerAt s j k = w
      · rw [if_pos hw.symm, if_pos (by simp [hw]), List.length_cons]
        omega
      · rw [if_neg (fun hh => hw hh.symm), if_neg (by simp [hw])]

/-- C2: after invalidate() followed by any read operation (get, keys,
values or equals), the LazyDict's cache is exactly the dict
comprehension of the recompute rule over the current key source, and the
freshness flag is true (the cache is replaced wholesale, so keys outside
the new key set are dropped). -/
theorem c2_lazydict_rebuild_on_read {K V : Type} [DecidableEq K] [DecidableEq V]
    (d : LazyDict K V) (key : K) (other : List (K × V)) :
    (((d.invalidate.getItem key).2.cache = pyDictComp (d.keys_source ()) d.recompute)
      ∧ (d.invalidate.getItem key).2.values_fresh = true)
    ∧ (((d.invalidate.keysOp).2.cache = pyDictComp (d.keys_source ()) d.recompute)
      ∧ (d.invalidate.keysOp).2.values_fresh = true)
    ∧ (((d.invalidate.valuesOp).2.cache = pyDictComp (d.keys_source ()) d.recompute)
      ∧ (d.invalidate.valuesOp).2.values_fresh = true)
    ∧ (((d.invalidate.eqOp other).2.cache = pyDictComp (d.keys_source ()) d.recompute)
      ∧ (d.invalidate.eqOp other).2.values_fresh = true) :=
  ⟨⟨rfl, rfl⟩, ⟨rfl, rfl⟩, ⟨rfl, rfl⟩, ⟨rfl, rfl⟩⟩

theorem c2_witness :
    ((ldTest.invalidate.getItem 1).2.cache = [(0, 0), (1, 2), (2, 4)]
      ∧ (ldTest.invalidate.getItem 1).2.values_fresh = true)
    ∧ (ldTest.invalidate.eqOp []).2.values_fresh = true := by
  have h := c2_lazydict_rebuild_on_read ldTest 1 []
  exact ⟨⟨h.1.1.trans (by decide), h.1.2⟩, h.2.2.2.2⟩

/-- C3: ingesting a sequence of length L slides the window over the
L - k + 1 starting positions 0..L-k (none when L < k), adds that many to
kmer_count, adds to each k-mer's count the number of windows equal to
it, increments sequence_count by one and invalidates both derived
views. -/
theorem c3_ingestion_window_counts (c : Composition) (r : SeqRecord) :
    (c.k ≤ r.seq.length →
      (process_single_sequence c r).kmer_count = c.kmer_count + (r.seq.length - c.k + 1))
    ∧ (r.seq.length < c.k →
      (process_single_sequence c r).kmer_count = c.kmer_count)
    ∧ (∀ w : String, countOf (process_single_sequence c r) w
        = countOf c w + ((List.range (r.seq.length + 1 - c.k)).filter
            (fun j => decide (kmerAt r.seq j c.k = w))).length)
    ∧ (process_single_sequence c r).sequence_count = c.sequence_count + 1
    ∧ (process_single_sequence c r).log_fresh = false
    ∧ (process_single_sequence c r).rel_fresh = false := by
  have main := ingest_foldl c.k r.seq (List.range (r.seq.length + 1 - c.k))
    c.kmer_count c.abs_distribution
  have hkc : (process_single_sequence c r).kmer_count
      = ((List.range (r.seq.length + 1 - c.k)).foldl
          (fun st j => (st.1 + 1, absIncr st.2 (kmerAt r.seq j c.k)))
          (c.kmer_count, c.abs_distribution)).1 := rfl
  have habs : (process_single_sequence c r).abs_distribution
      = ((List.range (r.seq.length + 1 - c.k)).foldl
          (fun st j => (st.1 + 1, absIncr st.2 (kmerAt r.seq j c.k)))
          (c.kmer_count, c.abs_distribution)).2 := rfl
  refine ⟨?_, ?_, ?_, rfl, rfl, rfl⟩
  · intro hk
    rw [hkc, main.1, List.length_range]
    omega
  · intro hk
    rw [hkc, main.1, List.length_range]
    omega
  · intro w
    simp only [countOf]
    rw [habs]
    exact main.2 w

theorem c3_witness :
    (process_single_sequence (Composition.init 3) ⟨"ACACAT"⟩).kmer_count
      = (Composition.init 3).kmer_count + ("ACACAT".length - (Composition.init 3).k + 1)
    ∧ countOf (process_single_sequence (Composition.init 3) ⟨"ACACAT"⟩) "ACA"
      = countOf (Composition.init 3) "ACA"
        + ((List.range ("ACACAT".length + 1 - (Composition.init 3).k)).filter
            (fun j => decide (kmerAt "ACACAT" j (Composition.init 3).k = "ACA"))).length
    ∧ (process_single_sequence (Composition.init 3) ⟨"ACACAT"⟩).sequence_count
      = (Composition.init 3).sequence_count + 1 := by
  have h := c3_ingestion_window_counts (Composition.init 3) ⟨"ACACAT"⟩
  exact ⟨h.1 (by decide), h.2.2.1 "ACA", h.2.2.2.1⟩

/-- C8 counterexample: an argument that is neither a SeqRecord nor a
list/tuple is silently ignored by process, which returns with the model
unchanged and no error, contradicting the claim that ingest fails with
InvalidInput on every unrecognized argument. -/
theorem c8_counterexample :
    process (Composition.init 3) ProcessArg.other = (Composition.init 3, none) := rfl

/-- C8 amended: an argument that is neither a SeqRecord nor a list/tuple
is silently ignored (state unchanged, no error); a non-SeqRecord element
inside a list/tuple fails with InvalidInput at that element, elements
before it having already been ingested. -/
theorem c8_amended_process_dispatch (c : Composition) :
    process c ProcessArg.other = (c, none)
    ∧ (∀ rest : List PyVal,
        process c (ProcessArg.many (PyVal.other :: rest)) = (c, some KmersError.invalidInput))
    ∧ (∀ (r : SeqRecord) (rest : List PyVal),
        process c (ProcessArg.many (PyVal.seqRecord r :: rest))
          = processList (process_single_sequence c r) rest) :=
  ⟨rfl, fun _ => rfl, fun _ _ => rfl⟩

theorem c8_witness :
    process cACACAT ProcessArg.other = (cACACAT, none)
    ∧ process cACACAT (ProcessArg.many [PyVal.other])
        = (cACACAT, some KmersError.invalidInput) :=
  ⟨(c8_amended_process_dispatch cACACAT).1, (c8_amended_process_dispatch cACACAT).2.1 []⟩

theorem processSinglePy_pseudocount (c : Composition) (v : PyVal) :
    (processSinglePy c v).1.pseudocount = c.pseudocount := by
  cases v <;> rfl

theorem processList_pseudocount :
    ∀ (l : List PyVal) (c : Composition), (processList c l).1.pseudocount = c.pseudocount := by
  intro l
  induction l with
  | nil => intro c; rfl
  | cons v rest ih =>
    intro c
    have hv := processSinglePy_pseudocount c v
    rcases hpv : processSinglePy c v with ⟨c', e⟩
    rw [hpv] at hv
    cases e with
    | none => simp only [processList, hpv]; rw [ih c', hv]
    | some err => simp only [processList, hpv]; exact hv

theorem process_pseudocount (c : Composition) (item : ProcessArg) :
    (process c item).1.pseudocount = c.pseudocount := by
  cases item with
  | record r => rfl
  | many l => exact processList_pseudocount l c
  | other => rfl

theorem builtByIngestion_pseudocount {c : Composition} (h : BuiltByIngestion c) :
    c.pseudocount = none := by
  induction h with
  | base k => rfl
  | step c item _ ih => rw [process_pseudocount c item]; exact ih

/-- C4: a Composition built only through construction and ingestion has
never had self.pseudocount assigned, so serialize always fails: with a
ZeroDivisionError on an empty model, otherwise with an AttributeError on
the missing pseudocount attribute. -/
theorem c4_write_fails_for_ingested_models (l10 : ℚ → ℚ) (c : Composition)
    (h : BuiltByIngestion c) : ∃ e : KmersError, write l10 c = Except.error e := by
  by_cases hk : c.kmer_count = 0
  · exact ⟨.zeroDivision, by simp [write, hk]⟩
  · exact ⟨.attributeError, by simp [write, hk, builtByIngestion_pseudocount h]⟩

theorem c4_witness :
    ∃ e : KmersError, write (fun _ => 0) cACACAT = Except.error e :=
  c4_write_fails_for_ingested_models (fun _ => 0) cACACAT
    (BuiltByIngestion.step (Composition.init 3) (ProcessArg.record ⟨"ACACAT"⟩)
      (BuiltByIngestion.base 3))

theorem readLoop_preserves (pf : String → ℚ) (pi : String → Nat) :
    ∀ (lines : List (String × String)) (c : Composition) (checked : Bool)
      (model : List (String × String)),
      (readLoop pf pi c checked model lines).1.k = c.k
      ∧ (readLoop pf pi c checked model lines).1.kmer_count = c.kmer_count
      ∧ (readLoop pf pi c checked model lines).1.abs_distribution = c.abs_distribution := by
  intro lines
  induction lines with
  | nil => intro c checked model; exact ⟨rfl, rfl, rfl⟩
  | cons p rest ih =>
    intro c checked model
    obtain ⟨kmer, fl⟩ := p
    simp only [readLoop]
    split_ifs with h1 h2 h3 h4
    · exact ih _ _ _
    · exact ih _ _ _
    · exact ⟨rfl, rfl, rfl⟩
    · exact ih _ _ _
    · exact ih _ _ _

/-- C1 (code bug): read never touches the count table or the k-mer keys
of the model it populates: only pseudocount and sequence_count can
change, because the data lines are collected in the local dict `model`
that the source discards on return.  In particular a fresh Composition
loaded from any stream still has an empty log-probability view, so the
serialize-then-deserialize round trip cannot preserve the
(k-mer, log-probability) pairs of a trained model. -/
theorem c1_read_discards_model_entries (pf : String → ℚ) (pi : String → Nat)
    (l10 : ℚ → ℚ) (c : Composition) (lines : List (String × String)) (k : Nat) :
    (read pf pi c lines).1.abs_distribution = c.abs_distribution
    ∧ (read pf pi c lines).1.kmer_count = c.kmer_count
    ∧ logValues l10 (read pf pi (Composition.init k) lines).1 = [] := by
  refine ⟨(readLoop_preserves pf pi lines c false []).2.2,
    (readLoop_preserves pf pi lines c false []).2.1, ?_⟩
  have habs : (read pf pi (Composition.init k) lines).1.abs_distribution
      = (Composition.init k).abs_distribution :=
    (readLoop_preserves pf pi lines (Composition.init k) false []).2.2
  rw [logValues, keys, habs]
  rfl

theorem c1_witness :
    logValues (fun _ => 0)
      ((read (fun _ => 0) (fun _ => 0) (Composition.init 3)
        [("Pseudo", "-0.602"), ("SCount", "1"), ("ACA", "-0.301")]).1) = [] :=
  (c1_read_discards_model_entries (fun _ => 0) (fun _ => 0) (fun _ => 0)
    (Composition.init 3)
    [("Pseudo", "-0.602"), ("SCount", "1"), ("ACA", "-0.301")] 3).2.2

theorem interKeys_eq_nil_of_length_ne {l1 l2 : List String} {k1 k2 : Nat}
    (h1 : ∀ w ∈ l1, w.length = k1) (h2 : ∀ w ∈ l2, w.length = k2) (hne : k1 ≠ k2) :
    interKeys l1 l2 = [] := by
  rw [interKeys]
  apply List.eq_nil_iff_forall_not_mem.mpr
  intro a ha
  have hmem := List.mem_filter.mp ha
  have ha1 : a ∈ l1 := (mem_pyDedup l1 a).mp hmem.1
  have ha2 : a ∈ l2 := of_decide_eq_true hmem.2
  exact hne ((h1 a ha1).symm.trans (h2 a ha2))

/-- C5 counterexample: euclidean between a k=2 model and a k=3 model
returns a value (the sum over the empty shared key set, i.e. 0) instead
of failing, so not every distance function raises IncompatibleModels on
differing k. -/
theorem c5_counterexample :
    euclidean cACAC2 cACACAT = Except.ok 0 ∧ cACAC2.k ≠ cACACAT.k :=
  ⟨rfl, by decide⟩

/-- C5 amended: only ffp_distance checks k and fails with
IncompatibleModels on differing k; euclidean and kullback_leibler have
no such check and, because all keys of a model have length k, iterate an
empty intersection and return 0. -/
theorem c5_amended_distance_k_check (l2f : ℚ → ℚ) (a b : Composition)
    (hk : a.k ≠ b.k)
    (hka : ∀ w ∈ keys a, w.length = a.k) (hkb : ∀ w ∈ keys b, w.length = b.k) :
    ffp_distance l2f a b = Except.error KmersError.incompatibleModels
    ∧ euclidean a b = Except.ok 0
    ∧ kullback_leibler l2f (relValues a) (relValues b) = 0 := by
  refine ⟨by rw [ffp_distance, if_neg hk], ?_, ?_⟩
  · rw [euclidean, interKeys_eq_nil_of_length_ne hka hkb hk]
    rfl
  · rw [kullback_leibler, relValues, relValues, map_fst_pyDictComp, map_fst_pyDictComp,
      interKeys_eq_nil_of_length_ne
        (fun w hw => hka w ((mem_pyDedup _ w).mp hw))
        (fun w hw => hkb w ((mem_pyDedup _ w).mp hw)) hk]
    rfl

theorem c5_witness :
    ffp_distance (fun _ => 0) cACAC2 cACACAT = Except.error KmersError.incompatibleModels
    ∧ euclidean cACAC2 cACACAT = Except.ok 0
    ∧ kullback_leibler (fun _ => 0) (relValues cACAC2) (relValues cACACAT) = 0 :=
  c5_amended_distance_k_check (fun _ => 0) cACAC2 cACACAT
    (by decide) (by decide) (by decide)

theorem readLoop_checked_no_error (pf : String → ℚ) (pi : String → Nat) :
    ∀ (lines : List (String × String)) (c : Composition)
      (model : List (String × String)),
      (readLoop pf pi c true model lines).2 = none := by
  intro lines
  induction lines with
  | nil => intro c model; rfl
  | cons p rest ih =>
    intro c model
    obtain ⟨kmer, fl⟩ := p
    simp only [readLoop]
    split_ifs with h1 h2 h3 h4 <;>
      first
      | exact ih _ _
      | exact h3.elim

theorem readLoop_pseudo_step (pf : String → ℚ) (pi : String → Nat)
    (c : Composition) (checked : Bool) (model : List (String × String))
    (fl : String) (rest : List (String × String)) :
    readLoop pf pi c checked model (("Pseudo", fl) :: rest)
      = readLoop pf pi { c with pseudocount := some (pf fl) } checked model rest := rfl

theorem readLoop_scount_step (pf : String → ℚ) (pi : String → Nat)
    (c : Composition) (checked : Bool) (model : List (String × String))
    (fl : String) (rest : List (String × String)) :
    readLoop pf pi c checked model (("SCount", fl) :: rest)
      = readLoop pf pi { c with sequence_count := pi fl } checked
          (model ++ [("SCount", fl)]) rest := rfl

theorem readLoop_data_step (pf : String → ℚ) (pi : String → Nat)
    (c : Composition) (checked : Bool) (model : List (String × String))
    (w fl : String) (rest : List (String × String))
    (hw1 : ¬(w = "Pseudo")) (hw2 : ¬(w = "SCount")) :
    readLoop pf pi c checked model ((w, fl) :: rest)
      = if checked = false then
          (if w.length ≠ c.k then (c, some KmersError.modelMismatch)
           else readLoop pf pi c true (model ++ [(w, fl)]) rest)
        else readLoop pf pi c checked (model ++ [(w, fl)]) rest := by
  simp only [readLoop, if_neg hw1, if_neg hw2]

/-- C9: on a stream in the model format (the two header lines first,
then data lines whose keys are not header keywords), read fails with
ModelMismatch exactly when there is a first data line and the length of
its k-mer key differs from the model's configured k; later keys are
never checked. -/
theorem c9_read_model_mismatch_iff (pf : String → ℚ) (pi : String → Nat)
    (c : Composition) (v0 v1 : String) (data : List (String × String))
    (hdata : ∀ p ∈ data, p.1 ≠ "Pseudo" ∧ p.1 ≠ "SCount") :
    (read pf pi c (("Pseudo", v0) :: ("SCount", v1) :: data)).2
        = some KmersError.modelMismatch
      ↔ ∃ w v rest, data = (w, v) :: rest ∧ w.length ≠ c.k := by
  rw [read, readLoop_pseudo_step, readLoop_scount_step]
  cases data with
  | nil =>
    simp [readLoop]
  | cons p rest =>
    obtain ⟨w, v⟩ := p
    obtain ⟨hw1, hw2⟩ := hdata (w, v) (List.mem_cons_self _ _)
    rw [readLoop_data_step pf pi _ false _ w v rest hw1 hw2, if_pos rfl]
    by_cases hlen : w.length ≠ c.k
    · rw [if_pos hlen]
      constructor
      · intro _; exact ⟨w, v, rest, rfl, hlen⟩
      · intro _; rfl
    · rw [if_neg hlen, readLoop_checked_no_error]
      constructor
      · intro h; exact Option.noConfusion h
      · rintro ⟨w', v', rest', heq, hne⟩
        injection heq with h1 h2
        injection h1 with hw hv
        rw [← hw] at hne
        exact absurd hne hlen

theorem c9_witness :
    (read (fun _ => 0) (fun _ => 0) (Composition.init 3)
      [("Pseudo", "-0.602"), ("SCount", "1"), ("ACAC", "-0.301")]).2
      = some KmersError.modelMismatch :=
  (c9_read_model_mismatch_iff (fun _ => 0) (fun _ => 0) (Composition.init 3)
    "-0.602" "1" [("ACAC", "-0.301")] (by decide)).mpr
    ⟨"ACAC", "-0.301", [], rfl, by decide⟩

/-- C6: on a non-empty model, prob slides the window over positions
0..L-k-1 (one short of the last possible window) and sums, for each
position, the log view's value of the k-mer when it was observed and the
pseudocount -log10(kmer_count) otherwise.  log10 is abstract; the one
property used is log10(1/n) = -log10(n), which the hypothesis hlog
supplies at n = kmer_count. -/
theorem c6_prob_log_likelihood (l10 : ℚ → ℚ) (c : Composition) (r : SeqRecord)
    (hne : c.kmer_count ≠ 0)
    (hlog : l10 (1 / (c.kmer_count : ℚ)) = - l10 ((c.kmer_count : ℚ))) :
    prob l10 c r = ((List.range (r.seq.length - c.k)).map (fun j =>
      if kmerAt r.seq j c.k ∈ keys c
      then l10 ((countOf c (kmerAt r.seq j c.k) : ℚ)) - l10 ((c.kmer_count : ℚ))
      else - l10 ((c.kmer_count : ℚ)))).sum := by
  simp only [prob]
  rw [foldl_add_eq, zero_add]
  congr 1
  apply mapCongrOn
  intro j hj
  by_cases hmem : kmerAt r.seq j c.k ∈ keys c
  · simp only [logValues, lookupA_pyDictComp, if_pos hmem]
  · simp only [logValues, lookupA_pyDictComp, if_neg hmem, hlog]

theorem c6_witness :
    prob (fun _ => (0 : ℚ)) cACACAT ⟨"ACACAT"⟩ = 0 := by
  have h := c6_prob_log_likelihood (fun _ => (0 : ℚ)) cACACAT ⟨"ACACAT"⟩
    (by decide) (by norm_num)
  rw [h]
  apply List.sum_eq_zero
  intro x hx
  obtain ⟨j, hj, rfl⟩ := List.mem_map.mp hx
  split <;> norm_num

theorem interKeys_mem {K : Type} [DecidableEq K] {l1 l2 : List K} {j : K}
    (hj : j ∈ interKeys l1 l2) : j ∈ l1 ∧ j ∈ l2 := by
  have h := List.mem_filter.mp hj
  exact ⟨(mem_pyDedup l1 j).mp h.1, of_decide_eq_true h.2⟩

theorem relGet_mem (a : Composition) (j : String) (hj : j ∈ keys a) :
    (relGet a j).getD 0 = relVal a j := by
  rw [relGet, relValues, lookupA_pyDictComp, if_pos hj]
  rfl

theorem kullback_leibler_zero (l2f : ℚ → ℚ) (d e : List (String × ℚ))
    (h : ∀ j ∈ interKeys (d.map Prod.fst) (e.map Prod.fst),
      (lookupA d j).getD 0 = (lookupA e j).getD 0) :
    kullback_leibler l2f d e = 0 := by
  rw [kullback_leibler, foldl_add_eq, zero_add]
  apply List.sum_eq_zero
  intro x hx
  obtain ⟨j, hj, rfl⟩ := List.mem_map.mp hx
  rw [h j hj]
  ring

/-- C7: for two non-empty models of equal k, ffp_distance equals
(KL(a, midpoint) + KL(b, midpoint)) / 2 where the midpoint assigns each
shared key the arithmetic mean of the two relative frequencies; and when
the two relative distributions agree on every shared key (in particular
for a model against itself) it returns 0. -/
theorem c7_ffp_midpoint_and_zero (l2f : ℚ → ℚ) (a b : Composition)
    (hk : a.k = b.k) (ha : a.kmer_count ≠ 0) (hb : b.kmer_count ≠ 0) :
    ffp_distance l2f a b
      = Except.ok ((kullback_leibler l2f (relValues a) (midpoint_spec a b)
          + kullback_leibler l2f (relValues b) (midpoint_spec a b)) / 2)
    ∧ ((∀ j, j ∈ keys a → j ∈ keys b → relVal a j = relVal b j) →
        ffp_distance l2f a b = Except.ok 0) := by
  have havg : (interKeys (keys a) (keys b)).map
      (fun j => (j, ((relGet a j).getD 0 + (relGet b j).getD 0) / 2))
      = midpoint_spec a b := by
    rw [midpoint_spec]
    apply mapCongrOn
    intro j hj
    obtain ⟨hja, hjb⟩ := interKeys_mem hj
    rw [relGet_mem a j hja, relGet_mem b j hjb]
  constructor
  · simp only [ffp_distance, if_pos hk]
    rw [havg]
    congr 1
    ring
  · intro hagree
    have hKa : kullback_leibler l2f (relValues a) (midpoint_spec a b) = 0 := by
      apply kullback_leibler_zero
      intro j hj
      obtain ⟨ja, jm⟩ := interKeys_mem hj
      have hja : j ∈ keys a := by
        rw [relValues, map_fst_pyDictComp] at ja
        exact (mem_pyDedup _ _).mp ja
      have hjint : j ∈ interKeys (keys a) (keys b) := by
        rw [midpoint_spec, List.map_map] at jm
        simpa using jm
      have hjb : j ∈ keys b := (interKeys_mem hjint).2
      rw [relValues, lookupA_pyDictComp, if_pos hja,
        midpoint_spec, lookupA_mapPairs, if_pos hjint]
      simp only [Option.getD_some]
      rw [← hagree j hja hjb]
      ring
    have hKb : kullback_leibler l2f (relValues b) (midpoint_spec a b) = 0 := by
      apply kullback_leibler_zero
      intro j hj
      obtain ⟨jb, jm⟩ := interKeys_mem hj
      have hjb : j ∈ keys b := by
        rw [relValues, map_fst_pyDictComp] at jb
        exact (mem_pyDedup _ _).mp jb
      have hjint : j ∈ interKeys (keys a) (keys b) := by
        rw [midpoint_spec, List.map_map] at jm
        simpa using jm
      have hja : j ∈ keys a := (interKeys_mem hjint).1
      rw [relValues, lookupA_pyDictComp, if_pos hjb,
        midpoint_spec, lookupA_mapPairs, if_pos hjint]
      simp only [Option.getD_some]
      rw [hagree j hja hjb]
      ring
    simp only [ffp_distance, if_pos hk]
    rw [havg, hKa, hKb]
    norm_num

theorem c7_witness :
    ffp_distance (fun _ => 0) cACACAT cACACAT = Except.ok 0 :=
  (c7_ffp_midpoint_and_zero (fun _ => 0) cACACAT cACACAT rfl (by decide) (by decide)).2
    (fun _ _ _ => rfl)

/-- C10: for the Composition built with k = 3 from the single sequence
ACACAT, the rebuilt relative-frequency view is exactly the mapping
ACA to 1/2, CAC to 1/4, CAT to 1/4. -/
theorem c10_acacat_relative_distribution :
    relValues cACACAT = [("ACA", (1 : ℚ)/2), ("CAC", (1 : ℚ)/4), ("CAT", (1 : ℚ)/4)] := by
  have h : relValues cACACAT
      = [("ACA", ((2 : ℕ) : ℚ)/((4 : ℕ) : ℚ)), ("CAC", ((1 : ℕ) : ℚ)/((4 : ℕ) : ℚ)),
         ("CAT", ((1 : ℕ) : ℚ)/((4 : ℕ) : ℚ))] := rfl
  rw [h]
  norm_num

end Kmers
